import Mathlib

/-
Verification of the Epsilon real-time Lorenz simulation engine.

Shallow embedding of the core simulation code:
  - src/src/utils/lorenzMath.ts   (Lorenz derivative, RK4 step, lerps, constants)
  - src/src/store/epsilonStore.ts (useLorenzSolver hook: scheduler, substep loop,
    ring buffers, brightness LUT, snapshot linearization, completion gate)

Machine doubles are modelled as exact rationals (ℚ); the structural claims
verified here (ordering, counts, indices, one-shot flags, algebraic form of the
update formulas) do not depend on rounding.  Where a claim is about IEEE
non-finite values, a second scalar type (Option ℚ, with none standing for a
non-finite value and absorbing under +, -, ×) is used; see the FQ section.
-/

-- ═══════════════════ Data model (lorenzMath.ts / colorMapping.ts) ═══════════════════

/-- Model of interface LorenzParams: the three scalar coefficients. -/
structure LorenzParams where
  sigma : ℚ
  rho : ℚ
  beta : ℚ
  deriving DecidableEq

/-- Model of interface Vec3: a phase-space state. -/
structure Vec3 where
  x : ℚ
  y : ℚ
  z : ℚ
  deriving DecidableEq

/-- Model of interface RGBColor from colorMapping.ts. -/
structure RGBColor where
  r : ℚ
  g : ℚ
  b : ℚ
  deriving DecidableEq

/-- Model of lorenzDerivative (lorenzMath.ts lines 27-33). -/
def lorenzDerivative (p : Vec3) (params : LorenzParams) : Vec3 :=
  { x := params.sigma * (p.y - p.x)
  , y := p.x * (params.rho - p.z) - p.y
  , z := p.x * p.y - params.beta * p.z }

/-- Model of rk4Step (lorenzMath.ts lines 36-65).  A total function of its
arguments: purity and absence of failure modes are inherited from the embedding
(it is a plain Lean function with no state and no error monad). -/
def rk4Step (pos : Vec3) (params : LorenzParams) (dt : ℚ) : Vec3 :=
  let k1 := lorenzDerivative pos params
  let p2 : Vec3 :=
    { x := pos.x + (dt / 2) * k1.x
    , y := pos.y + (dt / 2) * k1.y
    , z := pos.z + (dt / 2) * k1.z }
  let k2 := lorenzDerivative p2 params
  let p3 : Vec3 :=
    { x := pos.x + (dt / 2) * k2.x
    , y := pos.y + (dt / 2) * k2.y
    , z := pos.z + (dt / 2) * k2.z }
  let k3 := lorenzDerivative p3 params
  let p4 : Vec3 :=
    { x := pos.x + dt * k3.x
    , y := pos.y + dt * k3.y
    , z := pos.z + dt * k3.z }
  let k4 := lorenzDerivative p4 params
  { x := pos.x + (dt / 6) * (k1.x + 2 * k2.x + 2 * k3.x + k4.x)
  , y := pos.y + (dt / 6) * (k1.y + 2 * k2.y + 2 * k3.y + k4.y)
  , z := pos.z + (dt / 6) * (k1.z + 2 * k2.z + 2 * k3.z + k4.z) }

/-- Model of lerpParams (lorenzMath.ts lines 68-74). -/
def lerpParams (a b : LorenzParams) (t : ℚ) : LorenzParams :=
  { sigma := a.sigma + (b.sigma - a.sigma) * t
  , rho := a.rho + (b.rho - a.rho) * t
  , beta := a.beta + (b.beta - a.beta) * t }

/-- Model of lerpColor (colorMapping.ts). -/
def lerpColor (a b : RGBColor) (t : ℚ) : RGBColor :=
  { r := a.r + (b.r - a.r) * t
  , g := a.g + (b.g - a.g) * t
  , b := a.b + (b.b - a.b) * t }

/-- Model of STATUS_QUO_PARAMS (lorenzMath.ts line 106). -/
def STATUS_QUO_PARAMS : LorenzParams := { sigma := 10, rho := 24, beta := 8 / 3 }

/-- Model of DEFAULT_INITIAL (lorenzMath.ts line 109). -/
def DEFAULT_INITIAL : Vec3 := { x := 1, y := 1, z := 1 }

/-- Model of DT (lorenzMath.ts line 112). -/
def DT : ℚ := 0.005

/-- Model of STATUS_QUO_COLOR (colorMapping.ts). -/
def STATUS_QUO_COLOR : RGBColor := { r := 0, g := 0.9, b := 1 }

-- ═══════════════════ Spec-side RK4 (for the refinement claim C3) ═══════════════════

/-- Componentwise vector addition, used only to phrase the specification-side
RK4 formula. -/
def Vec3.add (a b : Vec3) : Vec3 := { x := a.x + b.x, y := a.y + b.y, z := a.z + b.z }

/-- Scalar multiple of a vector, used only to phrase the specification-side
RK4 formula. -/
def Vec3.smul (c : ℚ) (a : Vec3) : Vec3 := { x := c * a.x, y := c * a.y, z := c * a.z }

/-- Modelled from the spec (section 4.1): the derivative of the governing
equations dx/dt = sigma*(y - x), dy/dt = x*(rho - z) - y, dz/dt = x*y - beta*z,
written from the specification text for comparison with the source function. -/
def specDerivative (s : Vec3) (p : LorenzParams) : Vec3 :=
  { x := p.sigma * (s.y - s.x)
  , y := s.x * (p.rho - s.z) - s.y
  , z := s.x * s.y - p.beta * s.z }

/-- Modelled from the spec (section 4.1): the four-stage RK4 formula — evaluate
the derivative at the current state, at a half-step using that slope, at a
half-step using the second slope, and at a full step using the third slope, and
return state + (dt/6)*(k1 + 2*k2 + 2*k3 + k4) componentwise. -/
def specRK4Step (s : Vec3) (p : LorenzParams) (dt : ℚ) : Vec3 :=
  let k1 := specDerivative s p
  let k2 := specDerivative (s.add (Vec3.smul (dt / 2) k1)) p
  let k3 := specDerivative (s.add (Vec3.smul (dt / 2) k2)) p
  let k4 := specDerivative (s.add (Vec3.smul dt k3)) p
  s.add (Vec3.smul (dt / 6) ((k1.add (Vec3.smul 2 k2)).add ((Vec3.smul 2 k3).add k4)))

/-- C3: for every state, parameter set and step size, the integrator step of the
source (rk4Step) is exactly the pure four-stage RK4 update of the governing
Lorenz equations described by the spec: derivative evaluations at the current
state, two half-steps and a full step, combined with weights 1:2:2:1 over 6.
Purity and totality (no side effects, no failure for finite inputs) are
witnessed by the fact that rk4Step is a plain total function. -/
theorem C3_rk4_step_is_spec_rk4 (s : Vec3) (p : LorenzParams) (dt : ℚ) :
    rk4Step s p dt = specRK4Step s p dt := by
  simp only [rk4Step, specRK4Step, lorenzDerivative, specDerivative, Vec3.add, Vec3.smul]
  refine Vec3.mk.injEq .. ▸ ⟨by ring, by ring, by ring⟩

-- ═══════════════════ Engine constants (useLorenzSolver.ts lines 143-161) ═══════════════════

/-- Model of TRAIL_LENGTH (line 143): capacity of the trail ring buffers. -/
def TRAIL_LENGTH : ℕ := 4000

/-- Model of STEPS_PER_FRAME (line 146). -/
def STEPS_PER_FRAME : ℕ := 8

/-- Model of REFERENCE_FRAME_SECONDS (line 149). -/
def REFERENCE_FRAME_SECONDS : ℚ := 1 / 60

/-- Model of WARMUP_SECONDS (line 152). -/
def WARMUP_SECONDS : ℚ := 1.5

/-- Model of TRANSITION_SECONDS (line 155). -/
def TRANSITION_SECONDS : ℚ := 5.0

/-- Model of SETTLE_SECONDS (line 158). -/
def SETTLE_SECONDS : ℚ := 1.0

/-- Model of COMPLETE_SECONDS (line 161). -/
def COMPLETE_SECONDS : ℚ := WARMUP_SECONDS + TRANSITION_SECONDS + SETTLE_SECONDS

-- ═══════════════════ Trail ring buffer (useLorenzSolver.ts lines 203-208, 291-321) ═══════════════════

/-- Model of the trail ring-buffer state of the hook.  The source keeps parallel
fixed-length Float32Arrays (rawPosBuf/rawColorBuf) plus the shared writeIndex
and visibleCount refs; storage is modelled as an index-to-value map, length
capacity, with all accesses taken modulo capacity as in the source. -/
structure RingBuffer (α : Type) where
  capacity : ℕ
  data : ℕ → α
  writeIndex : ℕ
  visibleCount : ℕ

/-- Model of the reset performed by the configure effect (lines 232-237):
storage zero-filled (here: constant init value), writeIndex = 0,
visibleCount = 0. -/
def RingBuffer.fresh (n : ℕ) (init : α) : RingBuffer α :=
  { capacity := n, data := fun _ => init, writeIndex := 0, visibleCount := 0 }

/-- Model of one substep write (lines 294-307): store at writeIndex, advance
writeIndex circularly modulo capacity, increment visibleCount until it
saturates at capacity. -/
def RingBuffer.write (b : RingBuffer α) (a : α) : RingBuffer α :=
  { b with
    data := Function.update b.data b.writeIndex a
  , writeIndex := (b.writeIndex + 1) % b.capacity
  , visibleCount := if b.visibleCount < b.capacity then b.visibleCount + 1 else b.visibleCount }

/-- Sequence of writes, in order (the substep loop performs these one by one). -/
def RingBuffer.writeAll (b : RingBuffer α) (as : List α) : RingBuffer α :=
  as.foldl RingBuffer.write b

/-- Model of the oldestIndex computation (line 314):
visible === TRAIL_LENGTH ? writeIndex : 0, with TRAIL_LENGTH = capacity. -/
def RingBuffer.oldestIndex (b : RingBuffer α) : ℕ :=
  if b.visibleCount = b.capacity then b.writeIndex else 0

/-- Model of the linearization loop (lines 316-322, position part): the i-th
entry of the contiguous display sequence is the stored sample at circular index
(oldestIndex + i) % capacity, for i from 0 to visibleCount - 1. -/
def RingBuffer.snapshot (b : RingBuffer α) : List α :=
  (List.range b.visibleCount).map fun i => b.data ((b.oldestIndex + i) % b.capacity)

-- ═══════════════════ Brightness LUT and display colors (lines 164-168, 313-328) ═══════════════════

/-- Model of the brightnessLUT entries (lines 164-168): for index i (the source
array holds indices 0 ≤ i < TRAIL_LENGTH), t = i / (TRAIL_LENGTH - 1) and the
entry is 0.02 + 0.98 * (t * t). -/
def brightnessLUT (i : ℕ) : ℚ :=
  let t : ℚ := (i : ℚ) / ((TRAIL_LENGTH : ℚ) - 1)
  0.02 + 0.98 * (t * t)

/-- Per-channel scaling of a raw color by a brightness factor
(lines 325-327: dBuf = rBuf * b on each channel). -/
def scaleColor (c : RGBColor) (f : ℚ) : RGBColor :=
  { r := c.r * f, g := c.g * f, b := c.b * f }

/-- One trail sample: the position paired with the raw color stamped at write
time (parallel rawPosBuf/rawColorBuf entries at the same index). -/
structure Sample where
  pos : Vec3
  color : RGBColor
  deriving DecidableEq

/-- Zero-filled sample, the initial content of the buffers (fill(0)). -/
def sampleZero : Sample :=
  { pos := { x := 0, y := 0, z := 0 }, color := { r := 0, g := 0, b := 0 } }

/-- Model of the full display rebuild (lines 313-328): linearize the circular
window oldest-to-newest and scale each raw color channel by
brightnessLUT[(TRAIL_LENGTH - visibleCount) + i]. -/
def displaySnapshot (b : RingBuffer Sample) : List Sample :=
  (List.range b.visibleCount).map fun i =>
    let s := b.data ((b.oldestIndex + i) % b.capacity)
    { pos := s.pos, color := scaleColor s.color (brightnessLUT (TRAIL_LENGTH - b.visibleCount + i)) }

-- ═══════════════════ Scheduler and per-frame advance (lines 259-341) ═══════════════════

/-- Model of the lerpT computation (lines 277-280): 0 during warmup, then
min((elapsed - WARMUP_SECONDS) / TRANSITION_SECONDS, 1). -/
def lerpTOf (elapsed : ℚ) : ℚ :=
  if elapsed > WARMUP_SECONDS then min ((elapsed - WARMUP_SECONDS) / TRANSITION_SECONDS) 1 else 0

/-- Model of the substep count (lines 286-288):
scaledSteps = round((delta / REFERENCE_FRAME_SECONDS) * STEPS_PER_FRAME), then
substeps = max(1, min(scaledSteps, STEPS_PER_FRAME * 4)).  JS Math.round is
floor(x + 1/2), which is exactly Mathlib's round on ℚ. -/
def substepsOf (delta : ℚ) : ℤ :=
  max 1 (min (round (delta / REFERENCE_FRAME_SECONDS * (STEPS_PER_FRAME : ℚ)))
             ((STEPS_PER_FRAME : ℤ) * 4))

/-- Model of the substep integration loop (lines 291-292): run n RK4 substeps
sequentially from pos, returning the final state and the list of produced
states in production order (each of which the loop writes into the buffers). -/
def substepRun : ℕ → Vec3 → LorenzParams → Vec3 × List Vec3
  | 0, p, _ => (p, [])
  | n + 1, p, prm =>
    let p' := rk4Step p prm DT
    let rest := substepRun n p' prm
    (rest.1, p' :: rest.2)

/-- Iterated RK4 step (k applications), used to state which samples one
advance call produces. -/
def rk4Iter : ℕ → Vec3 → LorenzParams → Vec3
  | 0, p, _ => p
  | k + 1, p, prm => rk4Step (rk4Iter k p prm) prm DT

/-- Model of the per-session mutable refs of the hook (lines 201-209, 220-225):
target/start parameters and colors, integrator state, scheduler clock, trail
buffer, and the one-shot completion gate. -/
structure Session where
  targetParams : LorenzParams
  targetColor : RGBColor
  startColor : RGBColor
  pos : Vec3
  elapsed : ℚ
  trail : RingBuffer Sample
  hasCalledComplete : Bool

/-- Model of the state produced by the configure/reset effect (lines 228-256):
integrator state DEFAULT_INITIAL, clock 0, zeroed buffers with writeIndex =
visibleCount = 0, completion gate cleared, and the new target/colors stored. -/
def freshSession (target : LorenzParams) (targetColor startColor : RGBColor) : Session :=
  { targetParams := target
  , targetColor := targetColor
  , startColor := startColor
  , pos := DEFAULT_INITIAL
  , elapsed := 0
  , trail := RingBuffer.fresh TRAIL_LENGTH sampleZero
  , hasCalledComplete := false }

/-- Model of a configure call (the effect at lines 228-256).  The effect
unconditionally overwrites every ref with fresh values and never reads the
prior session, so the prior session argument is ignored; the source contains no
parameter validation and no failure path. -/
def configure (target : LorenzParams) (targetColor startColor : RGBColor)
    (_prior : Session) : Session :=
  freshSession target targetColor startColor

/-- Scheduler clock after one advance call (line 273: elapsed += delta, before
anything else in the frame body). -/
def elapsedAfter (s : Session) (delta : ℚ) : ℚ := s.elapsed + delta

/-- Model of currentParams (line 283): interpolated parameters, sampled once
per advance call from the updated clock. -/
def currentParamsOf (s : Session) (delta : ℚ) : LorenzParams :=
  lerpParams STATUS_QUO_PARAMS s.targetParams (lerpTOf (elapsedAfter s delta))

/-- Model of currentColor (line 284): interpolated raw color, sampled once per
advance call from the updated clock. -/
def currentColorOf (s : Session) (delta : ℚ) : RGBColor :=
  lerpColor s.startColor s.targetColor (lerpTOf (elapsedAfter s delta))

/-- Samples written during one advance call (lines 291-303): the substep loop
states, each stamped with the single currentColor of that call. -/
def advanceWrites (s : Session) (delta : ℚ) : List Sample :=
  ((substepRun (substepsOf delta).toNat s.pos (currentParamsOf s delta)).2).map
    fun p => { pos := p, color := currentColorOf s delta }

/-- Model of one useFrame body with active = true (lines 259-341): advance the
clock, sample interpolated parameters and color once, run the substep loop
writing each sample, and fire the one-shot completion gate (lines 336-340).
The returned Bool models whether onTransitionComplete was invoked by this call
(the only completion signal the hook emits). -/
def advance (s : Session) (delta : ℚ) : Session × Bool :=
  let elapsed := elapsedAfter s delta
  let run := substepRun (substepsOf delta).toNat s.pos (currentParamsOf s delta)
  let trail' := s.trail.writeAll (advanceWrites s delta)
  let completedNow := !s.hasCalledComplete && decide (COMPLETE_SECONDS ≤ elapsed)
  ( { s with
      pos := run.1
    , elapsed := elapsed
    , trail := trail'
    , hasCalledComplete := s.hasCalledComplete || completedNow }
  , completedNow )

/-- Run a sequence of advance calls, collecting the completion flags in call
order. -/
def runAdvances (s : Session) : List ℚ → Session × List Bool
  | [] => (s, [])
  | d :: ds =>
    let step := advance s d
    let rest := runAdvances step.1 ds
    (rest.1, step.2 :: rest.2)

/-- Cumulative elapsed time after the first k advance deltas. -/
def cumElapsed (ds : List ℚ) (k : ℕ) : ℚ := (ds.take k).sum

-- ═══════════════════ Ring buffer lemmas ═══════════════════

lemma writeAll_append (b : RingBuffer α) (as : List α) (a : α) :
    b.writeAll (as ++ [a]) = (b.writeAll as).write a := by
  simp [RingBuffer.writeAll]

lemma write_capacity (b : RingBuffer α) (a : α) : (b.write a).capacity = b.capacity := rfl

lemma writeAll_capacity (b : RingBuffer α) (as : List α) :
    (b.writeAll as).capacity = b.capacity := by
  induction as generalizing b with
  | nil => rfl
  | cons a tl ih => simpa [RingBuffer.writeAll, List.foldl_cons] using ih (b.write a)

lemma writeAll_visibleCount (as : List α) (b : RingBuffer α) (hb : b.visibleCount ≤ b.capacity) :
    (b.writeAll as).visibleCount = min (b.visibleCount + as.length) b.capacity := by
  induction as generalizing b with
  | nil => simp [RingBuffer.writeAll]; omega
  | cons a tl ih =>
    have hstep : b.writeAll (a :: tl) = (b.write a).writeAll tl := by
      simp [RingBuffer.writeAll]
    have hcap : (b.write a).capacity = b.capacity := rfl
    have hvis : (b.write a).visibleCount =
        if b.visibleCount < b.capacity then b.visibleCount + 1 else b.visibleCount := rfl
    rw [hstep, ih (b.write a) (by rw [hvis, hcap]; split <;> omega)]
    rw [hvis, hcap]
    simp only [List.length_cons]
    split <;> omega

lemma writeAll_writeIndex (as : List α) (b : RingBuffer α) (hN : 0 < b.capacity)
    (hw : b.writeIndex < b.capacity) :
    (b.writeAll as).writeIndex = (b.writeIndex + as.length) % b.capacity := by
  induction as generalizing b with
  | nil => simp [RingBuffer.writeAll, Nat.mod_eq_of_lt hw]
  | cons a tl ih =>
    have hstep : b.writeAll (a :: tl) = (b.write a).writeAll tl := by
      simp [RingBuffer.writeAll]
    have hcap : (b.write a).capacity = b.capacity := rfl
    have hwi : (b.write a).writeIndex = (b.writeIndex + 1) % b.capacity := rfl
    rw [hstep, ih (b.write a) (by rw [hcap]; exact hN)
          (by rw [hwi, hcap]; exact Nat.mod_lt _ hN)]
    rw [hwi, hcap, Nat.mod_add_mod, List.length_cons]
    congr 1
    omega

/-- Central correctness of the circular trail store: starting from a fresh
buffer of positive capacity N, after any sequence of writes the write index is
the write count modulo N, the visible count is the write count saturated at N,
and the snapshot is exactly the last min(count, N) written values in
oldest-to-newest write order. -/
lemma writeAll_fresh_spec {α : Type} (N : ℕ) (hN : 0 < N) (v : α) (as : List α) :
    ((RingBuffer.fresh N v).writeAll as).capacity = N ∧
    ((RingBuffer.fresh N v).writeAll as).writeIndex = as.length % N ∧
    ((RingBuffer.fresh N v).writeAll as).visibleCount = min as.length N ∧
    ((RingBuffer.fresh N v).writeAll as).snapshot = as.drop (as.length - N) := by
  induction as using List.reverseRecOn with
  | nil =>
    refine ⟨rfl, by simp [RingBuffer.writeAll, RingBuffer.fresh], by
      simp [RingBuffer.writeAll, RingBuffer.fresh], ?_⟩
    simp [RingBuffer.writeAll, RingBuffer.fresh, RingBuffer.snapshot]
  | append_singleton as' a ih =>
    obtain ⟨hcap, hwi, hvis, hsnap⟩ := ih
    rw [writeAll_append]
    set b := (RingBuffer.fresh N v).writeAll as' with hb
    set L := as'.length with hL
    have hcap' : (b.write a).capacity = N := hcap
    have hwi' : (b.write a).writeIndex = (L % N + 1) % N := by
      show (b.writeIndex + 1) % b.capacity = _
      rw [hwi, hcap]
    have hvis' : (b.write a).visibleCount = min (L + 1) N := by
      show (if b.visibleCount < b.capacity then b.visibleCount + 1 else b.visibleCount) = _
      rw [hvis, hcap]
      split <;> omega
    have hdata : (b.write a).data = Function.update b.data (L % N) a := by
      show Function.update b.data b.writeIndex a = _
      rw [hwi]
    have hlen : (as' ++ [a]).length = L + 1 := by simp
    refine ⟨hcap', by rw [hwi', hlen, Nat.mod_add_mod], by rw [hvis', hlen], ?_⟩
    rcases lt_or_ge L N with hlt | hge
    · -- not yet saturated: the window starts at 0 and simply grows
      have hO : (b.write a).oldestIndex = 0 := by
        unfold RingBuffer.oldestIndex
        rw [hvis', hcap', hwi', Nat.mod_add_mod]
        by_cases hEq : L + 1 = N
        · rw [if_pos (by omega), hEq, Nat.mod_self]
        · rw [if_neg (by omega)]
      have hObase : b.oldestIndex = 0 := by
        unfold RingBuffer.oldestIndex
        rw [hvis, hcap, if_neg (by omega)]
      have hminL : min L N = L := by omega
      have hmin1 : min (L + 1) N = L + 1 := by omega
      have hdataL : (b.write a).data = Function.update b.data L a := by
        rw [hdata, Nat.mod_eq_of_lt hlt]
      -- pointwise values of the unsaturated window, from the induction hypothesis
      have hpoint : ∀ j, (hj : j < L) → b.data j = as'[j] := by
        intro j hj
        have hlensnap : (RingBuffer.snapshot b).length = L := by
          unfold RingBuffer.snapshot
          rw [hvis, hcap, hminL]
          simp
        have h1 : (RingBuffer.snapshot b)[j] = b.data ((0 + j) % N) := by
          unfold RingBuffer.snapshot
          simp only [List.getElem_map, List.getElem_range, hObase, hcap]
        have hdrop0 : as'.drop (L - N) = as' := by
          rw [Nat.sub_eq_zero_of_le (le_of_lt hlt), List.drop_zero]
        have h2 : (RingBuffer.snapshot b)[j] = as'[j] :=
          List.getElem_of_eq (hsnap.trans hdrop0) _
        rw [← h2, h1, Nat.zero_add, Nat.mod_eq_of_lt (by omega)]
      unfold RingBuffer.snapshot
      rw [hO, hvis', hcap', hmin1, hdataL, hlen,
        Nat.sub_eq_zero_of_le (by omega), List.drop_zero]
      refine List.ext_getElem (by simp) ?_
      intro i hi1 hi2
      rw [List.length_map, List.length_range] at hi1
      rw [List.getElem_map, List.getElem_range]
      rw [Nat.zero_add, Nat.mod_eq_of_lt (by omega : i < N)]
      rcases eq_or_lt_of_le (Nat.succ_le_of_lt hi1) with hlast | hmid
      · -- the freshly written value lands at the end of the window
        have hiL : i = L := by omega
        subst hiL
        rw [Function.update_same]
        exact (List.getElem_concat_length as' a _ hL (by simp)).symm
      · -- older entries are unchanged
        have hiL : i < L := by omega
        rw [Function.update_noteq (by omega), hpoint i hiL]
        exact (List.getElem_append_left (by omega)).symm
    · -- saturated: the oldest entry is overwritten and the window rotates by one
      have hvisN : b.visibleCount = N := by rw [hvis]; omega
      have hminN : min (L + 1) N = N := by omega
      have hO : (b.write a).oldestIndex = (L % N + 1) % N := by
        unfold RingBuffer.oldestIndex
        rw [hvis', hcap', hwi', if_pos hminN]
      have hOb : b.oldestIndex = L % N := by
        unfold RingBuffer.oldestIndex
        rw [hvisN, hcap, if_pos rfl, hwi]
      -- pointwise content of the saturated window, from the induction hypothesis
      have hpoint : ∀ j, (hj : j < N) → b.data ((L % N + j) % N) =
          as'[L - N + j] := by
        intro j hj
        have hlensnap : (RingBuffer.snapshot b).length = N := by
          unfold RingBuffer.snapshot
          rw [hvis, hcap]
          simp
          omega
        have hjlt : j < (RingBuffer.snapshot b).length := by omega
        have h1 : (RingBuffer.snapshot b)[j] = b.data ((L % N + j) % N) := by
          unfold RingBuffer.snapshot
          simp only [List.getElem_map, List.getElem_range, hOb, hcap]
        have hjlt2 : j < (as'.drop (L - N)).length := by
          rw [List.length_drop]; omega
        have h2 : (as'.drop (L - N))[j] = as'[L - N + j] := List.getElem_drop _
        rw [← h1, ← h2]
        exact List.getElem_of_eq hsnap _
      unfold RingBuffer.snapshot
      rw [hO, hvis', hcap', hminN, hdata, hlen]
      refine List.ext_getElem (by simp [List.length_drop]; omega) ?_
      intro i hi1 hi2
      rw [List.length_map, List.length_range] at hi1
      rw [List.getElem_map, List.getElem_range]
      have hidx : ((L % N + 1) % N + i) % N = (L % N + (1 + i)) % N := by
        rw [Nat.mod_add_mod]
        congr 1
        omega
      have hrlt : L % N < N := Nat.mod_lt _ hN
      rcases eq_or_lt_of_le (Nat.succ_le_of_lt hi1) with hlast | hmid
      · -- the final window slot is the freshly written value
        have hiN : 1 + i = N := by omega
        have hidx2 : ((L % N + 1) % N + i) % N = L % N := by
          rw [hidx, hiN, Nat.add_mod_right, Nat.mod_eq_of_lt hrlt]
        rw [hidx2, Function.update_same]
        have hLi : L + 1 - N + i = L := by omega
        have hval : (as' ++ [a])[L + 1 - N + i] = a :=
          List.getElem_concat_length as' a (L + 1 - N + i) (by omega) (by simp; omega)
        rw [List.getElem_drop]
        exact hval.symm

      · -- interior window slots shift by one inside the old window
        have hne : (L % N + (1 + i)) % N ≠ L % N := by
          intro hcontra
          have h0 : (L % N + (1 + i)) % N = (L % N + 0) % N := by
            rw [hcontra, Nat.add_zero, Nat.mod_eq_of_lt hrlt]
          have hmeq : (1 + i) ≡ 0 [MOD N] := Nat.ModEq.add_left_cancel' (L % N) h0
          have hdvd : N ∣ 1 + i := (Nat.modEq_zero_iff_dvd).mp hmeq
          have := Nat.le_of_dvd (by omega) hdvd
          omega
        rw [hidx, Function.update_noteq hne]
        have h3 : b.data ((L % N + (1 + i)) % N) = as'[L - N + (1 + i)] :=
          hpoint (1 + i) (by omega)
        rw [h3, List.getElem_drop]
        have h4 : (as' ++ [a])[L + 1 - N + i] =
            as'[L + 1 - N + i] := List.getElem_append_left (by omega)
        rw [h4]
        have hidxeq : L - N + (1 + i) = L + 1 - N + i := by omega
        simp only [hidxeq]



-- ═══════════════════ Claim theorems ═══════════════════

/-- C4: the interpolation factor, as a function of the scheduler's elapsed
seconds, equals clamp((elapsed - 1.5) / 5.0, 0, 1): it is exactly 0 for every
elapsed ≤ 1.5, strictly increasing on 1.5 < elapsed < 6.5, and exactly 1 for
every elapsed ≥ 6.5. -/
theorem C4_interpolation_factor :
    (∀ e : ℚ, lerpTOf e = max 0 (min ((e - 1.5) / 5.0) 1)) ∧
    (∀ e : ℚ, e ≤ 1.5 → lerpTOf e = 0) ∧
    (∀ e f : ℚ, 1.5 < e → e < f → f < 6.5 → lerpTOf e < lerpTOf f) ∧
    (∀ e : ℚ, 6.5 ≤ e → lerpTOf e = 1) := by
  have hmid : ∀ e : ℚ, 1.5 < e → e < 6.5 → lerpTOf e = (e - 1.5) / 5 := by
    intro e he1 he2
    simp only [lerpTOf, WARMUP_SECONDS, TRANSITION_SECONDS]
    rw [if_pos (by norm_num; linarith), min_eq_left (by norm_num; linarith)]
    norm_num
  refine ⟨?_, ?_, ?_, ?_⟩
  · intro e
    simp only [lerpTOf, WARMUP_SECONDS, TRANSITION_SECONDS]
    rcases le_or_lt e 1.5 with h | h
    · rw [if_neg (by norm_num; linarith)]
      have hle : (e - 1.5) / 5.0 ≤ 0 := by linarith
      rw [max_eq_left (le_trans (min_le_left _ _) hle)]
    · rw [if_pos (by norm_num; linarith)]
      have h0 : (0 : ℚ) ≤ min ((e - 1.5) / 5.0) 1 :=
        le_min (by linarith) (by norm_num)
      rw [max_eq_right h0]
  · intro e he
    simp only [lerpTOf, WARMUP_SECONDS]
    rw [if_neg (by norm_num; linarith)]
  · intro e f he hef hf
    rw [hmid e he (by linarith), hmid f (by linarith) hf]
    linarith
  · intro e he
    simp only [lerpTOf, WARMUP_SECONDS, TRANSITION_SECONDS]
    rw [if_pos (by norm_num; linarith), min_eq_right (by norm_num; linarith)]

/-- C4 witness: the theorem instantiated at elapsed values 1, (2, 3) and 7. -/
theorem C4_interpolation_factor_witness :
    lerpTOf 1 = 0 ∧ lerpTOf 2 < lerpTOf 3 ∧ lerpTOf 7 = 1 :=
  ⟨C4_interpolation_factor.2.1 1 (by norm_num),
   C4_interpolation_factor.2.2.1 2 3 (by norm_num) (by norm_num) (by norm_num),
   C4_interpolation_factor.2.2.2 7 (by norm_num)⟩

/-- C9: the number of integrator substeps of one advance call equals
round((deltaSeconds / (1/60)) * 8) clamped to [1, 32]; in particular a delta of
1/60 yields exactly 8 substeps and a delta of 10/60 yields exactly 32, not 80. -/
theorem C9_substep_clamping :
    (∀ d : ℚ, substepsOf d = max 1 (min (round (d / (1 / 60) * 8)) 32)) ∧
    substepsOf (1 / 60) = 8 ∧ substepsOf (10 / 60) = 32 := by
  refine ⟨fun d => ?_, ?_, ?_⟩
  · simp only [substepsOf, REFERENCE_FRAME_SECONDS, STEPS_PER_FRAME]
    norm_num
  · norm_num [substepsOf, REFERENCE_FRAME_SECONDS, STEPS_PER_FRAME, round_eq]
  · norm_num [substepsOf, REFERENCE_FRAME_SECONDS, STEPS_PER_FRAME, round_eq]

/-- C6: for every sequence of writes into a fresh trail buffer of capacity
TRAIL_LENGTH = 4000, visibleCount never exceeds 4000 (it is the write count
saturated at 4000), the write index is the write count modulo 4000, and once
4000 writes have occurred visibleCount equals 4000 for every subsequent
write. -/
theorem C6_buffer_capacity_invariant (ws : List Sample) :
    ((RingBuffer.fresh TRAIL_LENGTH sampleZero).writeAll ws).visibleCount ≤ TRAIL_LENGTH ∧
    ((RingBuffer.fresh TRAIL_LENGTH sampleZero).writeAll ws).visibleCount
      = min ws.length TRAIL_LENGTH ∧
    ((RingBuffer.fresh TRAIL_LENGTH sampleZero).writeAll ws).writeIndex
      = ws.length % TRAIL_LENGTH ∧
    (TRAIL_LENGTH ≤ ws.length →
      ((RingBuffer.fresh TRAIL_LENGTH sampleZero).writeAll ws).visibleCount = TRAIL_LENGTH) := by
  obtain ⟨-, hwi, hvis, -⟩ :=
    writeAll_fresh_spec TRAIL_LENGTH (by norm_num [TRAIL_LENGTH]) sampleZero ws
  exact ⟨by omega, hvis, hwi, fun h => by omega⟩

/-- C6 witness: the theorem instantiated at a sequence of exactly 4000 writes. -/
theorem C6_buffer_capacity_invariant_witness :
    TRAIL_LENGTH ≤ (List.replicate TRAIL_LENGTH sampleZero).length ∧
    ((RingBuffer.fresh TRAIL_LENGTH sampleZero).writeAll
        (List.replicate TRAIL_LENGTH sampleZero)).visibleCount = TRAIL_LENGTH :=
  ⟨by simp, (C6_buffer_capacity_invariant (List.replicate TRAIL_LENGTH sampleZero)).2.2.2
    (by simp)⟩

/-- C7: the snapshot linearization returns the visible samples in strict
oldest-to-newest write order for every buffer state reachable by writes: the
snapshot of a fresh buffer of capacity N after writing the sequence as is the
suffix of as of length min(|as|, N) in write order; the window starts at index
0 before saturation and at the current write index after saturation; and
writing A, B, C, D, E, F into a buffer of capacity 5 yields exactly
[B, C, D, E, F]. -/
theorem C7_snapshot_ordering :
    (∀ (α : Type) (N : ℕ), 0 < N → ∀ (v : α) (as : List α),
      ((RingBuffer.fresh N v).writeAll as).snapshot = as.drop (as.length - N)) ∧
    (∀ (α : Type) (b : RingBuffer α),
      b.visibleCount = b.capacity → b.oldestIndex = b.writeIndex) ∧
    (∀ (α : Type) (b : RingBuffer α), b.visibleCount ≠ b.capacity → b.oldestIndex = 0) ∧
    ((RingBuffer.fresh 5 (0 : ℚ)).writeAll [1, 2, 3, 4, 5, 6]).snapshot = [2, 3, 4, 5, 6] := by
  refine ⟨fun α N hN v as => (writeAll_fresh_spec N hN v as).2.2.2, ?_, ?_, ?_⟩
  · intro α b h
    unfold RingBuffer.oldestIndex
    rw [if_pos h]
  · intro α b h
    unfold RingBuffer.oldestIndex
    rw [if_neg h]
  · rw [(writeAll_fresh_spec 5 (by norm_num) (0 : ℚ) [1, 2, 3, 4, 5, 6]).2.2.2]
    rfl

/-- C7 witness: the general ordering statement instantiated at capacity 5 with
six writes, and the saturated-window statement at that resulting buffer. -/
theorem C7_snapshot_ordering_witness :
    (0 < 5 ∧
      ((RingBuffer.fresh 5 (0 : ℚ)).writeAll [1, 2, 3, 4, 5, 6]).snapshot
        = [1, 2, 3, 4, 5, 6].drop ([1, 2, 3, 4, 5, 6].length - 5)) ∧
    (((RingBuffer.fresh 5 (0 : ℚ)).writeAll [1, 2, 3, 4, 5, 6]).visibleCount
        = ((RingBuffer.fresh 5 (0 : ℚ)).writeAll [1, 2, 3, 4, 5, 6]).capacity ∧
      ((RingBuffer.fresh 5 (0 : ℚ)).writeAll [1, 2, 3, 4, 5, 6]).oldestIndex
        = ((RingBuffer.fresh 5 (0 : ℚ)).writeAll [1, 2, 3, 4, 5, 6]).writeIndex) :=
  ⟨⟨by norm_num, C7_snapshot_ordering.1 ℚ 5 (by norm_num) 0 [1, 2, 3, 4, 5, 6]⟩,
   ⟨by decide, C7_snapshot_ordering.2.1 ℚ _ (by decide)⟩⟩
-- ═══════════════════ C1: configure never validates and never preserves prior state ═══════════════════

/-- Parameter set with non-positive sigma and rho, used to probe configure. -/
def invalidParams : LorenzParams := { sigma := -1, rho := 0, beta := 8 / 3 }

/-- Concrete mid-session engine state: nonzero clock, one sample in the trail,
integrator state away from the initial condition. -/
def priorSession : Session :=
  { targetParams := { sigma := 10, rho := 28, beta := 8 / 3 }
  , targetColor := { r := 1, g := 0, b := 0.85 }
  , startColor := STATUS_QUO_COLOR
  , pos := { x := 5, y := 6, z := 7 }
  , elapsed := 3
  , trail := (RingBuffer.fresh TRAIL_LENGTH sampleZero).write
      { pos := { x := 2, y := 3, z := 4 }, color := { r := 1, g := 0, b := 0.85 } }
  , hasCalledComplete := false }

/-- C1 counterexample: a configure call whose target parameters have
non-positive sigma and rho does not fail and does not leave the prior session
untouched — it resets the scheduler clock from 3 to 0, empties the trail
buffer (visibleCount 1 to 0) and moves the integrator state back to
DEFAULT_INITIAL.  The source configure path (the reset effect) has no
validation and no failure mode at all: configure is a total function into
Session, not into a result type with a ConfigError alternative. -/
theorem C1_configure_counterexample :
    invalidParams.sigma ≤ 0 ∧ invalidParams.rho ≤ 0 ∧
    priorSession.elapsed = 3 ∧
    (configure invalidParams priorSession.targetColor priorSession.startColor
        priorSession).elapsed = 0 ∧
    priorSession.trail.visibleCount = 1 ∧
    (configure invalidParams priorSession.targetColor priorSession.startColor
        priorSession).trail.visibleCount = 0 ∧
    (configure invalidParams priorSession.targetColor priorSession.startColor
        priorSession).pos ≠ priorSession.pos := by
  refine ⟨by norm_num [invalidParams], by norm_num [invalidParams], rfl, rfl, ?_, rfl, by decide⟩
  show (if 0 < TRAIL_LENGTH then 0 + 1 else 0) = 1
  norm_num [TRAIL_LENGTH]

/-- C1 amended: configure performs no parameter validation and cannot fail;
every configure call — with any parameters, including non-positive scalars —
unconditionally discards the prior session and reinitializes the engine state:
integrator state to DEFAULT_INITIAL, scheduler clock to 0, trail buffer empty,
completion gate cleared. -/
theorem C1_configure_unconditional_reset (t : LorenzParams) (tc sc : RGBColor)
    (p q : Session) :
    configure t tc sc p = configure t tc sc q ∧
    (configure t tc sc p).targetParams = t ∧
    (configure t tc sc p).elapsed = 0 ∧
    (configure t tc sc p).pos = DEFAULT_INITIAL ∧
    (configure t tc sc p).trail.visibleCount = 0 ∧
    (configure t tc sc p).trail.writeIndex = 0 ∧
    (configure t tc sc p).hasCalledComplete = false :=
  ⟨rfl, rfl, rfl, rfl, rfl, rfl, rfl⟩

-- ═══════════════════ C10: parameters and color sampled once per advance ═══════════════════

lemma rk4Iter_shift (k : ℕ) (p : Vec3) (prm : LorenzParams) :
    rk4Iter k (rk4Step p prm DT) prm = rk4Iter (k + 1) p prm := by
  induction k with
  | zero => rfl
  | succ n ih => simp only [rk4Iter, ih]

lemma substepRun_spec (n : ℕ) (p : Vec3) (prm : LorenzParams) :
    (substepRun n p prm).1 = rk4Iter n p prm ∧
    (substepRun n p prm).2 = (List.range n).map (fun k => rk4Iter (k + 1) p prm) := by
  induction n generalizing p with
  | zero => exact ⟨rfl, rfl⟩
  | succ m ih =>
    obtain ⟨ih1, ih2⟩ := ih (rk4Step p prm DT)
    constructor
    · show (substepRun m (rk4Step p prm DT) prm).1 = _
      rw [ih1, rk4Iter_shift]
    · show rk4Step p prm DT :: (substepRun m (rk4Step p prm DT) prm).2 = _
      rw [ih2, List.range_succ_eq_map, List.map_cons, List.map_map]
      congr 1
      refine List.map_congr_left fun k _ => ?_
      show rk4Iter (k + 1) (rk4Step p prm DT) prm = rk4Iter (k + 1 + 1) p prm
      exact rk4Iter_shift (k + 1) p prm

/-- C10: within a single advance call the interpolation factor is sampled
exactly once at entry — the sample written by substep k is the (k+1)-fold RK4
iterate of the entry state under the one interpolated parameter set
currentParamsOf, stamped with the one interpolated color currentColorOf; in
particular two samples written by the same advance call never carry different
parameters or different raw colors, and these are exactly the samples the call
appends to the trail buffer. -/
theorem C10_single_sampling_per_advance (s : Session) (d : ℚ) :
    advanceWrites s d = (List.range (substepsOf d).toNat).map
      (fun k => { pos := rk4Iter (k + 1) s.pos (currentParamsOf s d)
                , color := currentColorOf s d }) ∧
    (advance s d).1.trail = s.trail.writeAll (advanceWrites s d) := by
  refine ⟨?_, rfl⟩
  unfold advanceWrites
  rw [(substepRun_spec (substepsOf d).toNat s.pos (currentParamsOf s d)).2, List.map_map]
  rfl

-- ═══════════════════ C8: brightness LUT and display scaling ═══════════════════

lemma brightnessLUT_nonneg (i : ℕ) : 0 ≤ brightnessLUT i := by
  unfold brightnessLUT
  have h := mul_self_nonneg ((i : ℚ) / ((TRAIL_LENGTH : ℚ) - 1))
  nlinarith

lemma brightnessLUT_le_one (i : ℕ) (h : i ≤ TRAIL_LENGTH - 1) : brightnessLUT i ≤ 1 := by
  unfold brightnessLUT
  have hi : (i : ℚ) ≤ 3999 := by
    have : i ≤ 3999 := by simpa [TRAIL_LENGTH] using h
    exact_mod_cast this
  have hden : ((TRAIL_LENGTH : ℚ) - 1) = 3999 := by norm_num [TRAIL_LENGTH]
  rw [hden]
  have ht0 : 0 ≤ (i : ℚ) / 3999 := by positivity
  have ht1 : (i : ℚ) / 3999 ≤ 1 := by
    rw [div_le_one (by norm_num)]
    exact hi
  nlinarith

lemma brightnessLUT_mono {i j : ℕ} (h : i ≤ j) : brightnessLUT i ≤ brightnessLUT j := by
  unfold brightnessLUT
  have hden : (0 : ℚ) < (TRAIL_LENGTH : ℚ) - 1 := by norm_num [TRAIL_LENGTH]
  have hijc : (i : ℚ) ≤ (j : ℚ) := by exact_mod_cast h
  have hij : (i : ℚ) / ((TRAIL_LENGTH : ℚ) - 1) ≤ (j : ℚ) / ((TRAIL_LENGTH : ℚ) - 1) :=
    (div_le_div_iff_of_pos_right hden).mpr hijc
  have h0 : 0 ≤ (i : ℚ) / ((TRAIL_LENGTH : ℚ) - 1) := by positivity
  have hsq : (i : ℚ) / ((TRAIL_LENGTH : ℚ) - 1) * ((i : ℚ) / ((TRAIL_LENGTH : ℚ) - 1))
      ≤ (j : ℚ) / ((TRAIL_LENGTH : ℚ) - 1) * ((j : ℚ) / ((TRAIL_LENGTH : ℚ) - 1)) :=
    mul_le_mul hij hij h0 (le_trans h0 hij)
  linarith

/-- Characterization of the i-th display sample produced by the snapshot
linearization loop. -/
lemma displaySnapshot_getD (b : RingBuffer Sample) (i : ℕ) (hi : i < b.visibleCount) :
    (displaySnapshot b).getD i sampleZero =
      { pos := (b.data ((b.oldestIndex + i) % b.capacity)).pos
      , color := scaleColor (b.data ((b.oldestIndex + i) % b.capacity)).color
          (brightnessLUT (TRAIL_LENGTH - b.visibleCount + i)) } := by
  have hlen : i < (displaySnapshot b).length := by
    simpa [displaySnapshot] using hi
  rw [List.getD_eq_getElem _ _ hlen]
  unfold displaySnapshot
  simp only [List.getElem_map, List.getElem_range]

/-- Predicate: every channel of a color lies in [0, 1]. -/
def colorInUnitRange (c : RGBColor) : Prop :=
  0 ≤ c.r ∧ c.r ≤ 1 ∧ 0 ≤ c.g ∧ c.g ≤ 1 ∧ 0 ≤ c.b ∧ c.b ≤ 1

instance (c : RGBColor) : Decidable (colorInUnitRange c) := by
  unfold colorInUnitRange
  infer_instance

/-- C8: the brightness table of length TRAIL_LENGTH = 4000 satisfies
brightness[i] = 0.02 + 0.98*(i/(N-1))^2 for every index, hence
brightness[0] = 0.02, brightness[N-1] = 1 and the table is non-decreasing;
during snapshot linearization the sample at logical position i of the visible
window is scaled per channel by brightness[N - visibleCount + i], and the
output channels lie in [0,1] whenever the raw channels do. -/
theorem C8_brightness_gradient :
    (∀ i : ℕ, brightnessLUT i = 0.02 + 0.98 * ((i : ℚ) / ((TRAIL_LENGTH : ℚ) - 1)) ^ 2) ∧
    brightnessLUT 0 = 0.02 ∧
    brightnessLUT (TRAIL_LENGTH - 1) = 1 ∧
    (∀ i j : ℕ, i ≤ j → brightnessLUT i ≤ brightnessLUT j) ∧
    (∀ (b : RingBuffer Sample) (i : ℕ), i < b.visibleCount →
      (displaySnapshot b).getD i sampleZero =
        { pos := (b.data ((b.oldestIndex + i) % b.capacity)).pos
        , color := scaleColor (b.data ((b.oldestIndex + i) % b.capacity)).color
            (brightnessLUT (TRAIL_LENGTH - b.visibleCount + i)) }) ∧
    (∀ (b : RingBuffer Sample) (i : ℕ), b.visibleCount ≤ TRAIL_LENGTH → i < b.visibleCount →
      colorInUnitRange (b.data ((b.oldestIndex + i) % b.capacity)).color →
      colorInUnitRange (((displaySnapshot b).getD i sampleZero).color)) := by
  refine ⟨?_, ?_, ?_, fun i j h => brightnessLUT_mono h, fun b i hi => displaySnapshot_getD b i hi, ?_⟩
  · intro i
    unfold brightnessLUT
    ring
  · unfold brightnessLUT
    norm_num
  · unfold brightnessLUT TRAIL_LENGTH
    norm_num
  · intro b i hvis hi hraw
    rw [displaySnapshot_getD b i hi]
    have hT : TRAIL_LENGTH = 4000 := rfl
    have hidx : TRAIL_LENGTH - b.visibleCount + i ≤ TRAIL_LENGTH - 1 := by omega
    have hf0 : 0 ≤ brightnessLUT (TRAIL_LENGTH - b.visibleCount + i) := brightnessLUT_nonneg _
    have hf1 : brightnessLUT (TRAIL_LENGTH - b.visibleCount + i) ≤ 1 :=
      brightnessLUT_le_one _ hidx
    obtain ⟨h1, h2, h3, h4, h5, h6⟩ := hraw
    exact ⟨mul_nonneg h1 hf0, mul_le_one₀ h2 hf0 hf1,
           mul_nonneg h3 hf0, mul_le_one₀ h4 hf0 hf1,
           mul_nonneg h5 hf0, mul_le_one₀ h6 hf0 hf1⟩

/-- Concrete one-write buffer used to instantiate the C8 theorem. -/
def lutProbeBuffer : RingBuffer Sample :=
  (RingBuffer.fresh TRAIL_LENGTH sampleZero).write
    { pos := { x := 1, y := 2, z := 3 }, color := { r := 1, g := 1, b := 0 } }

/-- C8 witness: the monotonicity and range parts of the theorem instantiated at
concrete indices and at a concrete one-sample buffer. -/
theorem C8_brightness_gradient_witness :
    brightnessLUT 1 ≤ brightnessLUT 2 ∧
    lutProbeBuffer.visibleCount ≤ TRAIL_LENGTH ∧
    0 < lutProbeBuffer.visibleCount ∧
    colorInUnitRange
      (lutProbeBuffer.data ((lutProbeBuffer.oldestIndex + 0) % lutProbeBuffer.capacity)).color ∧
    colorInUnitRange (((displaySnapshot lutProbeBuffer).getD 0 sampleZero).color) :=
  ⟨C8_brightness_gradient.2.2.2.1 1 2 (by norm_num),
   by decide, by decide, by decide,
   C8_brightness_gradient.2.2.2.2.2 lutProbeBuffer 0 (by decide) (by decide) (by decide)⟩

-- ═══════════════════ C5: one-shot completion signal ═══════════════════

lemma advance_fst_elapsed (s : Session) (d : ℚ) : (advance s d).1.elapsed = s.elapsed + d := rfl

lemma advance_snd (s : Session) (d : ℚ) :
    (advance s d).2 = (!s.hasCalledComplete && decide (COMPLETE_SECONDS ≤ s.elapsed + d)) := rfl

lemma advance_fst_complete (s : Session) (d : ℚ) :
    (advance s d).1.hasCalledComplete
      = (s.hasCalledComplete || decide (COMPLETE_SECONDS ≤ s.elapsed + d)) := by
  show (s.hasCalledComplete
    || (!s.hasCalledComplete && decide (COMPLETE_SECONDS ≤ s.elapsed + d))) = _
  cases s.hasCalledComplete <;> simp

lemma cumElapsed_cons (d : ℚ) (tl : List ℚ) (m : ℕ) :
    cumElapsed (d :: tl) (m + 1) = d + cumElapsed tl m := by
  simp [cumElapsed]

lemma cumElapsed_zero (ds : List ℚ) : cumElapsed ds 0 = 0 := rfl

/-- Characterization of the completion flag of the i-th advance call of a run:
it fires exactly when the gate was clear at the start of the run, the clock has
reached COMPLETE_SECONDS by the end of that call, and it had not reached it at
the end of any earlier call of the run. -/
lemma runAdvances_flag (ds : List ℚ) : ∀ (s : Session) (i : ℕ), i < ds.length →
    (((runAdvances s ds).2.getD i false = true) ↔
      (s.hasCalledComplete = false ∧
       COMPLETE_SECONDS ≤ s.elapsed + cumElapsed ds (i + 1) ∧
       ∀ j < i, s.elapsed + cumElapsed ds (j + 1) < COMPLETE_SECONDS)) := by
  induction ds with
  | nil => intro s i hi; simp at hi
  | cons d tl ih =>
    intro s i hi
    have hrun : (runAdvances s (d :: tl)).2
        = (advance s d).2 :: (runAdvances (advance s d).1 tl).2 := rfl
    cases i with
    | zero =>
      rw [hrun, List.getD_cons_zero, advance_snd]
      simp only [Bool.and_eq_true, Bool.not_eq_true', decide_eq_true_eq]
      rw [cumElapsed_cons, cumElapsed_zero]
      constructor
      · rintro ⟨h1, h2⟩
        exact ⟨h1, by linarith, fun j hj => absurd hj (Nat.not_lt_zero j)⟩
      · rintro ⟨h1, h2, -⟩
        exact ⟨h1, by linarith⟩
    | succ k =>
      rw [hrun, List.getD_cons_succ]
      have hlen : k < tl.length := by simpa using hi
      rw [ih (advance s d).1 k hlen, advance_fst_elapsed, advance_fst_complete]
      constructor
      · rintro ⟨h1, h2, h3⟩
        simp only [Bool.or_eq_false_iff, decide_eq_false_iff_not, not_le] at h1
        refine ⟨h1.1, ?_, ?_⟩
        · rw [cumElapsed_cons]; linarith
        · intro j hj
          cases j with
          | zero =>
            rw [cumElapsed_cons, cumElapsed_zero]
            have := h1.2
            linarith
          | succ m =>
            have hm : m < k := by omega
            have := h3 m hm
            rw [cumElapsed_cons]
            linarith
      · rintro ⟨h1, h2, h3⟩
        have h0 : s.elapsed + d < COMPLETE_SECONDS := by
          have h0' := h3 0 (Nat.succ_pos k)
          rw [cumElapsed_cons, cumElapsed_zero] at h0'
          linarith
        refine ⟨?_, ?_, ?_⟩
        · simp only [Bool.or_eq_false_iff, decide_eq_false_iff_not, not_le]
          exact ⟨h1, h0⟩
        · rw [cumElapsed_cons] at h2; linarith
        · intro j hj
          have := h3 (j + 1) (by omega)
          rw [cumElapsed_cons] at this
          linarith

/-- C5: within one session, for every sequence of advance calls whose
cumulative elapsed time reaches COMPLETE_SECONDS = 7.5, the completion signal
is raised on exactly one call — the first call on which elapsed ≥ 7.5 — and on
no call before it and no call after it. -/
theorem C5_completion_fires_exactly_once (t : LorenzParams) (tc sc : RGBColor) (ds : List ℚ)
    (h : ∃ k, k < ds.length ∧ COMPLETE_SECONDS ≤ cumElapsed ds (k + 1)) :
    ∃ i, i < ds.length ∧
      COMPLETE_SECONDS ≤ cumElapsed ds (i + 1) ∧
      (∀ j < i, cumElapsed ds (j + 1) < COMPLETE_SECONDS) ∧
      (runAdvances (freshSession t tc sc) ds).2.getD i false = true ∧
      ∀ m, m < ds.length → m ≠ i →
        (runAdvances (freshSession t tc sc) ds).2.getD m false = false := by
  classical
  obtain ⟨k, hk, hck⟩ := h
  have hex : ∃ n, COMPLETE_SECONDS ≤ cumElapsed ds (n + 1) := ⟨k, hck⟩
  refine ⟨Nat.find hex, lt_of_le_of_lt (Nat.find_min' hex hck) hk, Nat.find_spec hex,
    fun j hj => not_le.mp (Nat.find_min hex hj), ?_, ?_⟩
  · rw [runAdvances_flag ds _ _ (lt_of_le_of_lt (Nat.find_min' hex hck) hk)]
    refine ⟨rfl, ?_, ?_⟩
    · show COMPLETE_SECONDS ≤ 0 + _
      rw [zero_add]
      exact Nat.find_spec hex
    · intro j hj
      show 0 + _ < COMPLETE_SECONDS
      rw [zero_add]
      exact not_le.mp (Nat.find_min hex hj)
  · intro m hm hne
    rw [Bool.eq_false_iff]
    intro htrue
    rw [runAdvances_flag ds _ m hm] at htrue
    obtain ⟨-, h2, h3⟩ := htrue
    rcases lt_or_gt_of_ne hne with hlt | hgt
    · have h2' : COMPLETE_SECONDS ≤ cumElapsed ds (m + 1) := by
        have : (freshSession t tc sc).elapsed = 0 := rfl
        rw [this, zero_add] at h2
        exact h2
      exact Nat.find_min hex hlt h2'
    · have h3' := h3 (Nat.find hex) hgt
      have : (freshSession t tc sc).elapsed = 0 := rfl
      rw [this, zero_add] at h3'
      exact absurd (Nat.find_spec hex) (not_le.mpr h3')

/-- C5 witness: a run of two advance calls of 4 seconds each crosses the 7.5s
threshold on the second call. -/
theorem C5_completion_fires_exactly_once_witness :
    (∃ k, k < ([4, 4] : List ℚ).length ∧ COMPLETE_SECONDS ≤ cumElapsed [4, 4] (k + 1)) ∧
    (∃ i, i < ([4, 4] : List ℚ).length ∧
      COMPLETE_SECONDS ≤ cumElapsed [4, 4] (i + 1) ∧
      (∀ j < i, cumElapsed [4, 4] (j + 1) < COMPLETE_SECONDS) ∧
      (runAdvances (freshSession { sigma := 10, rho := 28, beta := 3 }
          { r := 1, g := 0, b := 1 } STATUS_QUO_COLOR) [4, 4]).2.getD i false = true ∧
      ∀ m, m < ([4, 4] : List ℚ).length → m ≠ i →
        (runAdvances (freshSession { sigma := 10, rho := 28, beta := 3 }
            { r := 1, g := 0, b := 1 } STATUS_QUO_COLOR) [4, 4]).2.getD m false = false) :=
  ⟨⟨1, by norm_num, by norm_num [cumElapsed, COMPLETE_SECONDS, WARMUP_SECONDS,
      TRANSITION_SECONDS, SETTLE_SECONDS]⟩,
   C5_completion_fires_exactly_once { sigma := 10, rho := 28, beta := 3 }
     { r := 1, g := 0, b := 1 } STATUS_QUO_COLOR [4, 4]
     ⟨1, by norm_num, by norm_num [cumElapsed, COMPLETE_SECONDS, WARMUP_SECONDS,
        TRANSITION_SECONDS, SETTLE_SECONDS]⟩⟩

-- ═══════════════════ C2: non-finite propagation model ═══════════════════

/-- Scalar type modelling IEEE doubles including non-finite values: some q is a
finite value (exact rational), none is a non-finite value (NaN or infinity).
Under +, -, × a non-finite operand always yields a non-finite result in IEEE
arithmetic (NaN propagates through all three; infinities produce either an
infinity or NaN), which the wildcard cases model; finite-by-finite overflow to
infinity is not modelled, which is sound here because the counterexample only
tracks propagation from an already non-finite state. -/
abbrev FQ := Option ℚ

/-- Addition with non-finite absorption. -/
def fadd : FQ → FQ → FQ
  | some a, some b => some (a + b)
  | _, _ => none

/-- Subtraction with non-finite absorption. -/
def fsub : FQ → FQ → FQ
  | some a, some b => some (a - b)
  | _, _ => none

/-- Multiplication with non-finite absorption. -/
def fmul : FQ → FQ → FQ
  | some a, some b => some (a * b)
  | _, _ => none

/-- Phase-space state over the non-finite-aware scalars. -/
structure Vec3F where
  x : FQ
  y : FQ
  z : FQ
  deriving DecidableEq

/-- Model of lorenzDerivative over non-finite-aware scalars (the parameter set
itself is always finite: it comes from lerpParams over rationals). -/
def lorenzDerivativeF (p : Vec3F) (params : LorenzParams) : Vec3F :=
  { x := fmul (some params.sigma) (fsub p.y p.x)
  , y := fsub (fmul p.x (fsub (some params.rho) p.z)) p.y
  , z := fsub (fmul p.x p.y) (fmul (some params.beta) p.z) }

/-- Model of rk4Step over non-finite-aware scalars, mirroring the source
stage by stage. -/
def rk4StepF (pos : Vec3F) (params : LorenzParams) (dt : ℚ) : Vec3F :=
  let k1 := lorenzDerivativeF pos params
  let p2 : Vec3F :=
    { x := fadd pos.x (fmul (some (dt / 2)) k1.x)
    , y := fadd pos.y (fmul (some (dt / 2)) k1.y)
    , z := fadd pos.z (fmul (some (dt / 2)) k1.z) }
  let k2 := lorenzDerivativeF p2 params
  let p3 : Vec3F :=
    { x := fadd pos.x (fmul (some (dt / 2)) k2.x)
    , y := fadd pos.y (fmul (some (dt / 2)) k2.y)
    , z := fadd pos.z (fmul (some (dt / 2)) k2.z) }
  let k3 := lorenzDerivativeF p3 params
  let p4 : Vec3F :=
    { x := fadd pos.x (fmul (some dt) k3.x)
    , y := fadd pos.y (fmul (some dt) k3.y)
    , z := fadd pos.z (fmul (some dt) k3.z) }
  let k4 := lorenzDerivativeF p4 params
  { x := fadd pos.x (fmul (some (dt / 6))
      (fadd k1.x (fadd (fmul (some 2) k2.x) (fadd (fmul (some 2) k3.x) k4.x))))
  , y := fadd pos.y (fmul (some (dt / 6))
      (fadd k1.y (fadd (fmul (some 2) k2.y) (fadd (fmul (some 2) k3.y) k4.y))))
  , z := fadd pos.z (fmul (some (dt / 6))
      (fadd k1.z (fadd (fmul (some 2) k2.z) (fadd (fmul (some 2) k3.z) k4.z)))) }

/-- Iterated rk4StepF. -/
def rk4IterF : ℕ → Vec3F → LorenzParams → Vec3F
  | 0, p, _ => p
  | k + 1, p, prm => rk4StepF (rk4IterF k p prm) prm DT

/-- Model of the substep loop over non-finite-aware scalars: the loop body has
no finiteness check — it always performs all n steps and records every produced
state. -/
def substepRunF : ℕ → Vec3F → LorenzParams → Vec3F × List Vec3F
  | 0, p, _ => (p, [])
  | n + 1, p, prm =>
    let p' := rk4StepF p prm DT
    let rest := substepRunF n p' prm
    (rest.1, p' :: rest.2)

/-- Trail sample over non-finite-aware scalars. -/
structure SampleF where
  pos : Vec3F
  color : RGBColor
  deriving DecidableEq

/-- Zero-filled sample. -/
def sampleFZero : SampleF :=
  { pos := { x := some 0, y := some 0, z := some 0 }, color := { r := 0, g := 0, b := 0 } }

/-- Session state over non-finite-aware scalars. -/
structure SessionF where
  targetParams : LorenzParams
  targetColor : RGBColor
  startColor : RGBColor
  pos : Vec3F
  elapsed : ℚ
  trail : RingBuffer SampleF
  hasCalledComplete : Bool

/-- Interpolated parameters of one advance call (sampled once). -/
def currentParamsOfF (s : SessionF) (delta : ℚ) : LorenzParams :=
  lerpParams STATUS_QUO_PARAMS s.targetParams (lerpTOf (s.elapsed + delta))

/-- Interpolated raw color of one advance call (sampled once). -/
def currentColorOfF (s : SessionF) (delta : ℚ) : RGBColor :=
  lerpColor s.startColor s.targetColor (lerpTOf (s.elapsed + delta))

/-- Samples written during one advance call: the substep loop states — finite
or not — each stamped with the call's color. -/
def advanceWritesF (s : SessionF) (delta : ℚ) : List SampleF :=
  ((substepRunF (substepsOf delta).toNat s.pos (currentParamsOfF s delta)).2).map
    fun p => { pos := p, color := currentColorOfF s delta }

/-- Model of one useFrame body over non-finite-aware scalars, mirroring advance
line by line.  The returned Bool is the completion signal — the only flag the
hook reports; there is no divergence flag in the source. -/
def advanceF (s : SessionF) (delta : ℚ) : SessionF × Bool :=
  let elapsed := s.elapsed + delta
  let run := substepRunF (substepsOf delta).toNat s.pos (currentParamsOfF s delta)
  let trail' := s.trail.writeAll (advanceWritesF s delta)
  let completedNow := !s.hasCalledComplete && decide (COMPLETE_SECONDS ≤ elapsed)
  ( { s with
      pos := run.1
    , elapsed := elapsed
    , trail := trail'
    , hasCalledComplete := s.hasCalledComplete || completedNow }
  , completedNow )

/-- Session whose integrator state has a non-finite x-coordinate. -/
def divergedSessionF : SessionF :=
  { targetParams := { sigma := 10, rho := 28, beta := 3 }
  , targetColor := { r := 1, g := 0, b := 1 }
  , startColor := STATUS_QUO_COLOR
  , pos := { x := none, y := some 1, z := some 1 }
  , elapsed := 0
  , trail := RingBuffer.fresh TRAIL_LENGTH sampleFZero
  , hasCalledComplete := false }

/-- C2 counterexample: starting an advance call of one reference frame from a
state whose x-coordinate is non-finite, the engine performs all 8 substeps
(visibleCount and writeIndex advance from 0 to 8) and writes the non-finite
samples into the trail buffer (the samples at slots 0 and 7 both carry a
non-finite x).  The claim requires that no further substep run after the first
non-finite result and that the non-finite sample never be written; the code has
no such check, and its advance result carries no divergence flag (the only
Bool it returns is the completion signal). -/
theorem C2_divergence_counterexample :
    divergedSessionF.pos.x = none ∧
    (advanceF divergedSessionF (1 / 60)).1.trail.visibleCount = 8 ∧
    (advanceF divergedSessionF (1 / 60)).1.trail.writeIndex = 8 ∧
    ((advanceF divergedSessionF (1 / 60)).1.trail.data 0).pos.x = none ∧
    ((advanceF divergedSessionF (1 / 60)).1.trail.data 7).pos.x = none := by
  have h8 : (substepsOf (1 / 60)).toNat = 8 := by
    rw [show substepsOf (1 / 60) = 8 by
      norm_num [substepsOf, REFERENCE_FRAME_SECONDS, STEPS_PER_FRAME, round_eq]]
    rfl
  refine ⟨rfl, ?_, ?_, ?_, ?_⟩ <;>
    · simp only [advanceF, advanceWritesF, h8]
      decide

lemma rk4IterF_shift (k : ℕ) (p : Vec3F) (prm : LorenzParams) :
    rk4IterF k (rk4StepF p prm DT) prm = rk4IterF (k + 1) p prm := by
  induction k with
  | zero => rfl
  | succ n ih => simp only [rk4IterF, ih]

lemma substepRunF_spec (n : ℕ) (p : Vec3F) (prm : LorenzParams) :
    (substepRunF n p prm).1 = rk4IterF n p prm ∧
    (substepRunF n p prm).2 = (List.range n).map (fun k => rk4IterF (k + 1) p prm) := by
  induction n generalizing p with
  | zero => exact ⟨rfl, rfl⟩
  | succ m ih =>
    obtain ⟨ih1, ih2⟩ := ih (rk4StepF p prm DT)
    constructor
    · show (substepRunF m (rk4StepF p prm DT) prm).1 = _
      rw [ih1, rk4IterF_shift]
    · show rk4StepF p prm DT :: (substepRunF m (rk4StepF p prm DT) prm).2 = _
      rw [ih2, List.range_succ_eq_map, List.map_cons, List.map_map]
      congr 1
      refine List.map_congr_left fun k _ => ?_
      show rk4IterF (k + 1) (rk4StepF p prm DT) prm = rk4IterF (k + 1 + 1) p prm
      exact rk4IterF_shift (k + 1) p prm

/-- C2 amended: the engine performs no finiteness check during an advance call:
it always executes the full clamped substep count, and every substep's
resulting state — non-finite states included, since Vec3F ranges over them —
is written into the trail buffer unconditionally; the advance result carries no
divergence flag (its only Bool output is the completion signal). -/
theorem C2_no_divergence_check (s : SessionF) (d : ℚ) :
    (advanceWritesF s d).length = (substepsOf d).toNat ∧
    advanceWritesF s d = (List.range (substepsOf d).toNat).map
      (fun k => { pos := rk4IterF (k + 1) s.pos (currentParamsOfF s d)
                , color := currentColorOfF s d }) ∧
    (advanceF s d).1.trail = s.trail.writeAll (advanceWritesF s d) := by
  have hmap : advanceWritesF s d = (List.range (substepsOf d).toNat).map
      (fun k => { pos := rk4IterF (k + 1) s.pos (currentParamsOfF s d)
                , color := currentColorOfF s d }) := by
    unfold advanceWritesF
    rw [(substepRunF_spec (substepsOf d).toNat s.pos (currentParamsOfF s d)).2, List.map_map]
    rfl
  refine ⟨?_, hmap, rfl⟩
  rw [hmap, List.length_map, List.length_range]
